import Mathlib

set_option maxRecDepth 8000

/-!
Shallow embedding of the `pg_dump_splitter` parsing core
(`src/parser.ts`: statement tokenizer, object classifier, attachment
engine, parse orchestrator) and proofs of the frozen claims about it.

Strings are modelled as `List Char` (`Str`).  JavaScript regular
expressions are modelled by an executable backtracking matcher over a
small regex AST; each `RegExp` of the source is transcribed to that AST.
The Unicode property classes `\p{L}` / `\p{N}` of the identifier pattern
are modelled by their ASCII restrictions (`Char.isAlpha` /
`Char.isDigit`); every identifier occurring in the claims is ASCII, and
no theorem below depends on the non-ASCII part of those classes.
-/

namespace PgDump

/-- Strings of the JavaScript runtime, modelled as lists of characters. -/
abbrev Str := List Char

/-- Shorthand turning a Lean string literal into a `Str`. -/
def str (s : String) : Str := s.data

/-- The JavaScript whitespace class: the character set matched by `\s`
and stripped by `String.prototype.trim`. -/
def isJsWs (c : Char) : Bool :=
  let n := c.toNat
  n = 0x20 || n = 0x9 || n = 0xa || n = 0xb || n = 0xc || n = 0xd ||
  n = 0xa0 || n = 0x1680 || (0x2000 ≤ n && n ≤ 0x200a) ||
  n = 0x2028 || n = 0x2029 || n = 0x202f || n = 0x205f || n = 0x3000 || n = 0xfeff

/-- JavaScript line terminators (the characters `.` does not match
without the `s` flag). -/
def isLineTerm (c : Char) : Bool :=
  let n := c.toNat
  n = 0xa || n = 0xd || n = 0x2028 || n = 0x2029

/-- Remove the longest trailing run of characters satisfying `p`. -/
def dropTrailWhile (p : Char → Bool) (s : Str) : Str :=
  (s.reverse.dropWhile p).reverse

/-- `String.prototype.trim`. -/
def jsTrim (s : Str) : Str :=
  dropTrailWhile isJsWs (s.dropWhile isJsWs)

/-- `s.slice(a, b)` for non-negative clamped indices. -/
def sliceN (s : Str) (a b : Nat) : Str := (s.take b).drop a

/-- Leftmost index (counted from `base`) at which `needle` occurs in the
remaining text; `none` if it does not occur. -/
def findSub (needle : Str) : Str → Nat → Option Nat
  | [], base => if needle = [] then some base else none
  | c :: rest, base =>
    if needle.isPrefixOf (c :: rest) then some base else findSub needle rest (base + 1)

/-- `hay.indexOf(needle, start)` (JavaScript), with `none` standing for `-1`. -/
def jsIndexOfFrom (hay needle : Str) (start : Nat) : Option Nat :=
  (findSub needle (hay.drop start) 0).map (· + start)

/-- `s.lastIndexOf(c, upTo)` (JavaScript, single-character needle):
the largest position `k ≤ upTo` holding `c`, as an `Int`, `-1` if none.
The caller has already clamped `upTo` as the JavaScript spec does. -/
def jsLastIndexOfUpTo (s : Str) (c : Char) (upTo : Nat) : Int :=
  match ((List.range s.length).filter (fun k => k ≤ upTo && s[k]? = some c)).getLast? with
  | some k => (k : Int)
  | none => -1

/-- `s.lastIndexOf(c)` (JavaScript) without a `fromIndex`. -/
def jsLastIndexOf (s : Str) (c : Char) : Int :=
  jsLastIndexOfUpTo s c s.length

/-- `s.lastIndexOf(c, from)` with an `Int` index as the source produces:
JavaScript clamps a negative `fromIndex` to `0`. -/
def jsLastIndexOfFrom (s : Str) (c : Char) (fromIdx : Int) : Int :=
  jsLastIndexOfUpTo s c (max fromIdx 0).toNat

/-! ## Regex engine

A backtracking matcher in continuation-passing style, faithful to the
semantics of the JavaScript `RegExp` constructs used by the source:
ordered alternation, greedy `*`/`+`/`?`, numbered capture groups,
positive lookahead and the `$` anchor (no `m` flag anywhere in the
source, so `$` means end of input).  `fuel` bounds the recursion depth;
every quantifier body in the source's patterns consumes at least one
character, so a fuel linear in the input length is sufficient, and the
generous default below is used for all concrete runs. -/

/-- Regex AST covering the constructs used by `src/parser.ts`. -/
inductive RE where
  | eps : RE
  | cls : (Char → Bool) → RE
  | seqn : RE → RE → RE
  | alt : RE → RE → RE
  | star : RE → RE
  | group : Nat → RE → RE
  | look : RE → RE
  | eos : RE

/-- Capture assignments; later entries shadow earlier ones. -/
abbrev Caps := List (Nat × Str)

/-- `match[i]` of a JavaScript exec result (`none` = non-participating). -/
def getCap (caps : Caps) (i : Nat) : Option Str :=
  (caps.find? (fun p => p.1 == i)).map (·.2)

/-- The backtracking matcher.  `k` is the continuation receiving the
position after the current sub-expression and the captures so far. -/
def matchRE (input : Str) : Nat → RE → Nat → Caps →
    (Nat → Caps → Option (Nat × Caps)) → Option (Nat × Caps)
  | 0, _, _, _, _ => none
  | fuel + 1, r, pos, caps, k =>
    match r with
    | .eps => k pos caps
    | .cls p =>
      match input[pos]? with
      | some c => if p c then k (pos + 1) caps else none
      | none => none
    | .seqn a b => matchRE input fuel a pos caps (fun p c => matchRE input fuel b p c k)
    | .alt a b =>
      match matchRE input fuel a pos caps k with
      | some res => some res
      | none => matchRE input fuel b pos caps k
    | .star a =>
      match matchRE input fuel a pos caps (fun p c =>
          if pos < p then matchRE input fuel (.star a) p c k else none) with
      | some res => some res
      | none => k pos caps
    | .group i a =>
      matchRE input fuel a pos caps (fun p c => k p ((i, sliceN input pos p) :: c))
    | .look a =>
      match matchRE input fuel a pos caps (fun p c => some (p, c)) with
      | some (_, c2) => k pos c2
      | none => none
    | .eos => if pos = input.length then k pos caps else none

/-- A successful `RegExp.exec` result. -/
structure REMatch where
  index : Nat
  matched : Str
  caps : Caps
  deriving DecidableEq, Repr

/-- Fuel that is ample for every pattern of the source on the given input. -/
def reFuel (input : Str) : Nat := (input.length + 2) * 128

/-- Attempt a match of `r` anchored at position `pos`. -/
def tryAt (r : RE) (input : Str) (pos : Nat) : Option REMatch :=
  (matchRE input (reFuel input) r pos [] (fun p c => some (p, c))).map
    (fun pc => ⟨pos, sliceN input pos pc.1, pc.2⟩)

/-- Leftmost search, positions `pos, pos+1, ...` (fuelled scan). -/
def execFrom (r : RE) (input : Str) : Nat → Nat → Option REMatch
  | 0, _ => none
  | fuel + 1, pos =>
    match tryAt r input pos with
    | some m => some m
    | none => execFrom r input fuel (pos + 1)

/-- `regex.exec(input)`: the leftmost match, if any. -/
def execRE (r : RE) (input : Str) : Option REMatch :=
  execFrom r input (input.length + 1) 0

/-- `s.replace(regex, replacement)` for a non-global regex and a
replacement that ignores the match (the source only ever deletes here). -/
def replaceFirstRE (r : RE) (f : REMatch → Str) (s : Str) : Str :=
  match execRE r s with
  | some m => sliceN s 0 m.index ++ f m ++ s.drop (m.index + m.matched.length)
  | none => s

/-- `s.replace(regex, f)` for a global regex whose matches are always
non-empty (true of both global patterns in the source); `f` receives
`match[0]`. -/
def replaceAllRE : Nat → RE → (Str → Str) → Str → Str
  | 0, _, _, s => s
  | fuel + 1, r, f, s =>
    match execRE r s with
    | none => s
    | some m =>
      sliceN s 0 m.index ++ f m.matched ++
        replaceAllRE fuel r f (s.drop (m.index + m.matched.length))

/-- Global replace with fuel sized to the input. -/
def replaceAll (r : RE) (f : Str → Str) (s : Str) : Str :=
  replaceAllRE (s.length + 1) r f s

/-! ## The source's regular expressions -/

/-- A single character, exactly. -/
def rchar (c : Char) : RE := .cls (fun d => d = c)

/-- ASCII case-insensitive character comparison (the `i` flag; all
case-carrying literals in the source's patterns are ASCII). -/
def ciEq (a b : Char) : Bool :=
  let lower := fun (n : Nat) => if 65 ≤ n && n ≤ 90 then n + 32 else n
  lower a.toNat = lower b.toNat

/-- A case-insensitive literal string. -/
def rstri (s : Str) : RE :=
  s.foldr (fun c acc => .seqn (.cls (fun d => ciEq d c)) acc) .eps

/-- Sequence of regexes. -/
def rseq (l : List RE) : RE := l.foldr .seqn .eps

/-- `\s` -/
def rws : RE := .cls isJsWs

/-- `\s+` -/
def rws1 : RE := .seqn rws (.star rws)

/-- `\s*` -/
def rwsStar : RE := .star rws

/-- `(?:r)?`, greedy. -/
def ropt (r : RE) : RE := .alt r .eps

/-- `r+`, greedy. -/
def rplus (r : RE) : RE := .seqn r (.star r)

/-- `.` without the `s` flag. -/
def rdot : RE := .cls (fun c => !isLineTerm c)

/-- `.` with the `s` flag. -/
def rdotAll : RE := .cls (fun _ => true)

/-- First character of an unquoted identifier: `[_\p{L}]`
(`\p{L}` modelled as ASCII letters). -/
def isIdentStart (c : Char) : Bool := c = '_' || c.isAlpha

/-- Continuation character of an unquoted identifier: `[_\p{L}\p{N}$]`. -/
def isIdentCont (c : Char) : Bool := c = '_' || c.isAlpha || c.isDigit || c = '$'

/-- `IDENTIFIER_PATTERN = (?:[_\p{L}][_\p{L}\p{N}$]*|"(?:[^"]|"")+")`. -/
def reIdent : RE :=
  .alt (.seqn (.cls isIdentStart) (.star (.cls isIdentCont)))
    (rseq [rchar '"',
           rplus (.alt (.cls (fun c => c ≠ '"')) (.seqn (rchar '"') (rchar '"'))),
           rchar '"'])

/-- `SCHEMA_QUALIFIED_OBJECT_PATTERN = (?:(ID)\.)?(ID)` with the two
capture-group numbers supplied by the caller. -/
def reSchemaQualified (g1 g2 : Nat) : RE :=
  .seqn (ropt (.seqn (.group g1 reIdent) (rchar '.'))) (.group g2 reIdent)

/-- `SchemaParser.regex : CREATE\s+SCHEMA\s+(ID)` -/
def schemaRegex : RE :=
  rseq [rstri (str "CREATE"), rws1, rstri (str "SCHEMA"), rws1, .group 1 reIdent]

/-- `ExtensionParser.regex :
`CREATE\s+EXTENSION\s+(?:IF\s+NOT\s+EXISTS\s+)?(ID)(?:(?:\s+WITH)?(?:\s+SCHEMA)?\s+(ID))?` -/
def extensionRegex : RE :=
  rseq [rstri (str "CREATE"), rws1, rstri (str "EXTENSION"), rws1,
        ropt (rseq [rstri (str "IF"), rws1, rstri (str "NOT"), rws1,
                    rstri (str "EXISTS"), rws1]),
        .group 1 reIdent,
        ropt (rseq [ropt (.seqn rws1 (rstri (str "WITH"))),
                    ropt (.seqn rws1 (rstri (str "SCHEMA"))),
                    rws1, .group 2 reIdent])]

/-- `CREATE\s+KEYWORD\s+(?:(ID)\.)?(ID)` shared by the type, domain,
function and procedure matchers. -/
def createKwRegex (kw : Str) : RE :=
  rseq [rstri (str "CREATE"), rws1, rstri kw, rws1, reSchemaQualified 1 2]

/-- `TableParser.regex : CREATE\s+(?:UNLOGGED\s+)?TABLE\s+(?:(ID)\.)?(ID)` -/
def tableRegex : RE :=
  rseq [rstri (str "CREATE"), rws1, ropt (.seqn (rstri (str "UNLOGGED")) rws1),
        rstri (str "TABLE"), rws1, reSchemaQualified 1 2]

/-- `ViewParser.regex :
`CREATE\s+(?:RECURSIVE\s+|MATERIALIZED\s+)?VIEW\s+(?:(ID)\.)?(ID)` -/
def viewRegex : RE :=
  rseq [rstri (str "CREATE"), rws1,
        ropt (.alt (.seqn (rstri (str "RECURSIVE")) rws1)
                   (.seqn (rstri (str "MATERIALIZED")) rws1)),
        rstri (str "VIEW"), rws1, reSchemaQualified 1 2]

/-- `SequenceParser.regex` (flags `isu`, so `.` matches everything):
`ALTER\s+TABLE\s+(?:ONLY\s+)?(?:(ID)\.)?(ID)\s+ALTER\s+(?:COLUMN\s+)?(ID)\s+ADD\s+`
`GENERATED\s+(?:ALWAYS|BY\s+DEFAULT)\s+AS\s+IDENTITY\s+`
`\(\s*SEQUENCE\s+NAME\s+(?:(ID)\.)?(ID).*\)\s*;[^;]*$` -/
def sequenceRegex : RE :=
  rseq [rstri (str "ALTER"), rws1, rstri (str "TABLE"), rws1,
        ropt (.seqn (rstri (str "ONLY")) rws1),
        reSchemaQualified 1 2,
        rws1, rstri (str "ALTER"), rws1,
        ropt (.seqn (rstri (str "COLUMN")) rws1),
        .group 3 reIdent, rws1, rstri (str "ADD"), rws1,
        rstri (str "GENERATED"), rws1,
        .alt (rstri (str "ALWAYS")) (rseq [rstri (str "BY"), rws1, rstri (str "DEFAULT")]),
        rws1, rstri (str "AS"), rws1, rstri (str "IDENTITY"), rws1,
        rchar '(', rwsStar, rstri (str "SEQUENCE"), rws1, rstri (str "NAME"), rws1,
        reSchemaQualified 4 5,
        .star rdotAll, rchar ')', rwsStar, rchar ';',
        .star (.cls (fun c => c ≠ ';')), .eos]

/-- `ConstraintParser.regex :
`ALTER\s+TABLE\s+(?:ONLY\s+)?(?:(ID)\.)?(ID)\s+ADD\s+CONSTRAINT\s+(ID)` -/
def constraintRegex : RE :=
  rseq [rstri (str "ALTER"), rws1, rstri (str "TABLE"), rws1,
        ropt (.seqn (rstri (str "ONLY")) rws1),
        reSchemaQualified 1 2,
        rws1, rstri (str "ADD"), rws1, rstri (str "CONSTRAINT"), rws1,
        .group 3 reIdent]

/-- `IndexParser.regex :
`CREATE\s+(?:UNIQUE\s+)?INDEX\s+(?:(ID)\s+)?ON\s+(?:ONLY\s+)?(?:(ID)\.)?(ID)` -/
def indexRegex : RE :=
  rseq [rstri (str "CREATE"), rws1, ropt (.seqn (rstri (str "UNIQUE")) rws1),
        rstri (str "INDEX"), rws1,
        ropt (.seqn (.group 1 reIdent) rws1),
        rstri (str "ON"), rws1, ropt (.seqn (rstri (str "ONLY")) rws1),
        reSchemaQualified 2 3]

/-- `Parser.TABLE_HEADER_REGEX :
`CREATE\s+(?:UNLOGGED\s+)?TABLE\s+(?:(ID)\.)?(ID)\s*(?=\()` -/
def tableHeaderRegex : RE :=
  rseq [rstri (str "CREATE"), rws1, ropt (.seqn (rstri (str "UNLOGGED")) rws1),
        rstri (str "TABLE"), rws1, reSchemaQualified 1 2,
        rwsStar, .look (rchar '(')]

/-- `Parser.SEQUENCE_HEADER_REGEX :
`ALTER\s+TABLE\s+(?:ONLY\s+)?(?:(ID)\.)?(ID)\s+ALTER\s+(?:COLUMN\s+)?ID\s+ADD\s+` -/
def sequenceHeaderRegex : RE :=
  rseq [rstri (str "ALTER"), rws1, rstri (str "TABLE"), rws1,
        ropt (.seqn (rstri (str "ONLY")) rws1),
        reSchemaQualified 1 2,
        rws1, rstri (str "ALTER"), rws1,
        ropt (.seqn (rstri (str "COLUMN")) rws1),
        reIdent, rws1, rstri (str "ADD"), rws1]

/-- `Parser.CONSTRAINT_DEFINITION_REGEX :
`ADD\s+CONSTRAINT\s+(ID)\s+(.+);[^;]*$` (no `s` flag: `.` excludes line
terminators). -/
def constraintDefinitionRegex : RE :=
  rseq [rstri (str "ADD"), rws1, rstri (str "CONSTRAINT"), rws1,
        .group 1 reIdent, rws1, .group 2 (rplus rdot), rchar ';',
        .star (.cls (fun c => c ≠ ';')), .eos]

/-- `/\s+(?:NOT\s+)?NULL\s*$/i` used for the sequence insertion point. -/
def notNullRegex : RE :=
  rseq [rws1, ropt (.seqn (rstri (str "NOT")) rws1), rstri (str "NULL"), rwsStar, .eos]

/-- `/\s*;\s*$/` (strips the terminating semicolon of a sequence body). -/
def trailingSemiRegex : RE := rseq [rwsStar, rchar ';', rwsStar, .eos]

/-- `/\s{2,}|\n+/g` (collapses line breaks and indentation). -/
def collapseWsRegex : RE :=
  .alt (rseq [rws, rws, rwsStar]) (rplus (rchar '\n'))

/-- `/(\(\s+|\s+\))+/g` (whitespace just inside parentheses). -/
def parenWsRegex : RE :=
  rplus (.alt (.seqn (rchar '(') rws1) (.seqn rws1 (rchar ')')))

/-! ## Statement tokenizer (`Parser.splitIntoStatements`) -/

/-- The greedy `(?:[A-Za-z_][A-Za-z0-9_]*)?` part of `DOLLAR_QUOTE_REGEX`
(maximal munch is exact here: the following `\$` is not an identifier
character). -/
def tagIdentCandidate : Str → Str
  | c :: cs =>
    if c.isAlpha || c = '_' then
      c :: cs.takeWhile (fun d => d.isAlpha || d.isDigit || d = '_')
    else []
  | [] => []

/-- The identifier part of a match of
`DOLLAR_QUOTE_REGEX = /^\$(?:[A-Za-z_][A-Za-z0-9_]*)?\$/` against the
text starting at the current scan position: `some ident` exactly when
the anchored pattern matches the tag `'$' :: ident ++ ['$']`. -/
def dollarTagIdent (s : Str) : Option Str :=
  match s with
  | c :: rest =>
    if c = '$' then
      let ident := tagIdentCandidate rest
      match rest.drop ident.length with
      | d :: _ => if d = '$' then some ident else none
      | [] => none
    else none
  | [] => none

/-- The scan loop of `Parser.splitIntoStatements`, one recursive call per
loop iteration.  `rem` is `content.slice(pos)`, `cur` the accumulating
statement, `acc` the emitted statements; the four flags are
`inDashComment, inBlockComment, inSingleQuote, inDoubleQuote`.  The fuel
only serves structural recursion: every iteration advances `pos`, so the
fuel used by `splitIntoStatements` below is never exhausted (the fuel-0
row keeps the concatenation invariant regardless). -/
def splitLoopF (sep : Char) : Nat → Str → Str → List Str → Bool → Bool → Bool → Bool → List Str
  | _, [], cur, acc, _, _, _, _ => if cur = [] then acc else acc ++ [cur]
  | 0, rem, cur, acc, _, _, _, _ => acc ++ [cur ++ rem]
  | fuel + 1, ch :: rest, cur, acc, inDash, inBlock, inSingle, inDouble =>
    if ch = '$' then
      match dollarTagIdent (ch :: rest) with
      | some ident =>
        let tagLen := ident.length + 2
        match jsIndexOfFrom (ch :: rest) ('$' :: (ident ++ ['$'])) tagLen with
        | some closePos =>
          splitLoopF sep fuel ((ch :: rest).drop (closePos + tagLen))
            (cur ++ (ch :: rest).take (closePos + tagLen)) acc inDash inBlock inSingle inDouble
        | none =>
          splitLoopF sep fuel ((ch :: rest).drop tagLen)
            (cur ++ '$' :: (ident ++ ['$'])) acc inDash inBlock inSingle inDouble
      | none =>
        splitLoopF sep fuel rest (cur ++ [ch]) acc inDash inBlock inSingle inDouble
    else if !inSingle && !inDouble && !inBlock && ch = '-' && rest.head? = some '-' then
      splitLoopF sep fuel rest.tail (cur ++ ['-', '-']) acc true inBlock inSingle inDouble
    else if !inSingle && !inDouble && !inDash && ch = '/' && rest.head? = some '*' then
      splitLoopF sep fuel rest.tail (cur ++ ['/', '*']) acc inDash true inSingle inDouble
    else if inDash then
      splitLoopF sep fuel rest (cur ++ [ch]) acc (!(ch = '\n' || ch = '\r')) inBlock
        inSingle inDouble
    else if inBlock then
      if ch = '*' && rest.head? = some '/' then
        splitLoopF sep fuel rest.tail (cur ++ ['*', '/']) acc inDash false inSingle inDouble
      else
        splitLoopF sep fuel rest (cur ++ [ch]) acc inDash inBlock inSingle inDouble
    else
      let s1 := if !inDouble && ch = '\'' then !inSingle else inSingle
      let d1 := if !(!inDouble && ch = '\'') && (!inSingle && ch = '"') then !inDouble
                else inDouble
      if !s1 && !d1 && ch = sep then
        splitLoopF sep fuel rest [] (acc ++ [cur ++ [sep]]) inDash inBlock s1 d1
      else
        splitLoopF sep fuel rest (cur ++ [ch]) acc inDash inBlock s1 d1

/-- `Parser.splitIntoStatements(content, separator)`. -/
def splitIntoStatements (content : Str) (sep : Char) : List Str :=
  splitLoopF sep content.length content [] [] false false false false

/-! ## Data model -/

/-- `DatabaseObjectType` plus the three internal attachable kinds. -/
inductive ObjKind where
  | schema | extension | typ | domain | function | procedure | table | view
  | sequence | constraint | index
  deriving DecidableEq, Repr

/-- `ParsedStatement` (the union of the per-parser result shapes; the
fields `tableSchema`, `table`, `column` are only populated by the
attachable parsers, mirroring the source's union type). -/
structure ParsedStmt where
  kind : ObjKind
  schema : Str
  name : Str
  qualifiedName : Option Str := none
  definition : Str
  residual : Option Str := none
  tableSchema : Option Str := none
  table : Option Str := none
  column : Option Str := none
  deriving DecidableEq, Repr

/-- `DatabaseObject`. -/
structure DBObject where
  kind : ObjKind
  schema : Str
  name : Str
  qualifiedName : Option Str := none
  definition : Str
  sequences : Option (List Str) := none
  constraints : Option (List Str) := none
  indexes : Option (List Str) := none
  deriving DecidableEq, Repr

/-- `ParsedResult`. -/
structure ParseResult where
  objects : List DBObject
  residual : Str
  deriving DecidableEq, Repr

/-- `DEFAULT_SCHEMA`. -/
def DEFAULT_SCHEMA : Str := str "public"

/-- `makeQualifiedName`. -/
def makeQualifiedName (schema name : Str) : Str := schema ++ '.' :: name

/-! ## Object classifier (`BaseParser` hierarchy, `Parser.parseStatement`) -/

/-- `BaseParser.extractDefinition`: `(definition, residual?)`.  The
JavaScript guard `if (match.index)` is number truthiness, i.e. `index ≠ 0`. -/
def extractDefinition (matchIndex : Nat) (statement : Str) : Str × Option Str :=
  if matchIndex ≠ 0 then (statement.drop matchIndex, some (statement.take matchIndex))
  else (statement, none)

/-- `GeneralParser.parse` (type, domain, function, procedure, table, view).
Group 2 always participates in a successful match; `.getD []` merely
totalises the lookup. -/
def generalParse (kind : ObjKind) (m : REMatch) (statement : Str) : ParsedStmt :=
  let schema := (getCap m.caps 1).getD DEFAULT_SCHEMA
  let name := (getCap m.caps 2).getD []
  let ed := extractDefinition m.index statement
  { kind := kind, schema := schema, name := name,
    qualifiedName := some (makeQualifiedName schema name),
    definition := ed.1, residual := ed.2 }

/-- `SchemaParser.parse`. -/
def schemaParse (m : REMatch) (statement : Str) : ParsedStmt :=
  let schema := (getCap m.caps 1).getD []
  let ed := extractDefinition m.index statement
  { kind := .schema, schema := schema, name := schema,
    definition := ed.1, residual := ed.2 }

/-- `ExtensionParser.parse`. -/
def extensionParse (m : REMatch) (statement : Str) : ParsedStmt :=
  let schema := (getCap m.caps 2).getD DEFAULT_SCHEMA
  let name := (getCap m.caps 1).getD []
  let ed := extractDefinition m.index statement
  { kind := .extension, schema := schema, name := name,
    qualifiedName := some (makeQualifiedName schema name),
    definition := ed.1, residual := ed.2 }

/-- `SequenceParser.parse`. -/
def sequenceParse (m : REMatch) (statement : Str) : ParsedStmt :=
  let schema := (getCap m.caps 4).getD DEFAULT_SCHEMA
  let name := (getCap m.caps 5).getD []
  let ed := extractDefinition m.index statement
  { kind := .sequence, schema := schema, name := name,
    qualifiedName := some (makeQualifiedName schema name),
    tableSchema := some ((getCap m.caps 1).getD DEFAULT_SCHEMA),
    table := some ((getCap m.caps 2).getD []),
    column := some ((getCap m.caps 3).getD []),
    definition := ed.1, residual := ed.2 }

/-- `ConstraintParser.parse`. -/
def constraintParse (m : REMatch) (statement : Str) : ParsedStmt :=
  let schema := (getCap m.caps 1).getD DEFAULT_SCHEMA
  let name := (getCap m.caps 3).getD []
  let ed := extractDefinition m.index statement
  { kind := .constraint, schema := schema, name := name,
    qualifiedName := some (makeQualifiedName schema name),
    table := some ((getCap m.caps 2).getD []),
    definition := ed.1, residual := ed.2 }

/-- `IndexParser.parse`.  `match[1]` is `undefined` for an unnamed index;
the template literal in `makeQualifiedName` then stringifies it to the
text `"undefined"`, which is what `.getD (str "undefined")` mirrors. -/
def indexParse (m : REMatch) (statement : Str) : ParsedStmt :=
  let schema := (getCap m.caps 2).getD DEFAULT_SCHEMA
  let name := (getCap m.caps 1).getD (str "undefined")
  let ed := extractDefinition m.index statement
  { kind := .index, schema := schema, name := name,
    qualifiedName := some (makeQualifiedName schema name),
    table := some ((getCap m.caps 3).getD []),
    definition := ed.1, residual := ed.2 }

/-- `Parser.parseStatement`: the ordered `PARSER_REGISTRY` — schema,
extension, type, domain, function, procedure, table, sequence, view,
constraint, index; first match wins. -/
def parseStatement (statement : Str) : Option ParsedStmt :=
  match execRE schemaRegex statement with
  | some m => some (schemaParse m statement)
  | none =>
  match execRE extensionRegex statement with
  | some m => some (extensionParse m statement)
  | none =>
  match execRE (createKwRegex (str "TYPE")) statement with
  | some m => some (generalParse .typ m statement)
  | none =>
  match execRE (createKwRegex (str "DOMAIN")) statement with
  | some m => some (generalParse .domain m statement)
  | none =>
  match execRE (createKwRegex (str "FUNCTION")) statement with
  | some m => some (generalParse .function m statement)
  | none =>
  match execRE (createKwRegex (str "PROCEDURE")) statement with
  | some m => some (generalParse .procedure m statement)
  | none =>
  match execRE tableRegex statement with
  | some m => some (generalParse .table m statement)
  | none =>
  match execRE sequenceRegex statement with
  | some m => some (sequenceParse m statement)
  | none =>
  match execRE viewRegex statement with
  | some m => some (generalParse .view m statement)
  | none =>
  match execRE constraintRegex statement with
  | some m => some (constraintParse m statement)
  | none =>
  match execRE indexRegex statement with
  | some m => some (indexParse m statement)
  | none => none

/-! ## Indentation detection (`Parser.detectIndent`) -/

/-- `((/^[ \t]*/.exec(line)) ?? [''])[0]` — the regex always matches, so
this is the leading run of spaces and tabs. -/
def leadingIndent (line : Str) : Str := line.takeWhile (fun c => c = ' ' || c = '\t')

/-- The `freq` object as an association list in property order.  The keys
are whitespace strings, never array indices, so JavaScript property order
is first-insertion order. -/
def countOcc (l : List Str) : List (Str × Nat) :=
  l.foldl (fun acc ws =>
    if acc.any (fun p => p.1 == ws) then
      acc.map (fun p => if p.1 = ws then (p.1, p.2 + 1) else p)
    else acc ++ [(ws, 1)]) []

/-- `Object.entries(freq).sort(([, a], [, b]) => b - a)[0]`: the sort is
stable, so this is the leftmost entry of maximal count. -/
def mostUsedEntry : List (Str × Nat) → (Str × Nat)
  | [] => ([], 0)
  | e :: es => es.foldl (fun best p => if p.2 > best.2 then p else best) e

/-- The source's recursive Euclidean `gcd`, with the second argument as
fuel bound (`a % b < b` at every step). -/
def gcdFuel : Nat → Nat → Nat → Nat
  | 0, a, _ => a
  | f + 1, a, b => if b = 0 then a else gcdFuel f b (a % b)

/-- `gcd(a, b)` of `Parser.detectIndent`. -/
def gcdJs (a b : Nat) : Nat := gcdFuel (b + 1) a b

/-- `list.reduce(gcd)` — no initial value, so the head seeds the fold
(`[].reduce` throws in JavaScript; both call sites are non-empty). -/
def reduceGcd : List Nat → Nat
  | [] => 0
  | x :: xs => xs.foldl gcdJs x

/-- The result record of `Parser.detectIndent`. -/
structure IndentInfo where
  style : Str
  amount : Nat
  indent : Str
  deriving DecidableEq, Repr

/-- `Parser.detectIndent`.  The majority test `count > indents.length / 2`
uses JavaScript real division, i.e. `2 * count > indents.length`. -/
def detectIndent (s : Str) : IndentInfo :=
  let indents := ((s.splitOn '\n').map leadingIndent).filter (fun ws => ws.length > 0)
  if indents.length = 0 then ⟨str "space", 0, []⟩
  else
    let mu := mostUsedEntry (countOcc indents)
    if 2 * mu.2 > indents.length then
      ⟨if mu.1.head? = some '\t' then str "tab" else str "space", mu.1.length, mu.1⟩
    else
      let spaceCounts := (indents.filter (fun ws => ws.head? = some ' ')).map List.length
      if spaceCounts ≠ [] then
        let unit := reduceGcd spaceCounts
        ⟨str "space", unit, List.replicate unit ' '⟩
      else
        let tabCounts := (indents.filter (fun ws => ws.head? = some '\t')).map List.length
        let unit := reduceGcd tabCounts
        ⟨str "tab", unit, List.replicate unit '\t'⟩

/-! ## Attachment engine -/

/-- `UNSAFE_REGEX_CHARACTERS_REGEX`: the class of the sixteen regex
metacharacters `- / \ ^ $ * + ? . ( ) | [ ]` and the two braces. -/
def isUnsafeRegexChar (c : Char) : Bool :=
  (['-', '/', '\\', '^', '$', '*', '+', '?', '.', '(', ')', '|', '[', ']',
    '\x7b', '\x7d'] : List Char).contains c

/-- `column.replace(UNSAFE_REGEX_CHARACTERS_REGEX, '\\$&')` — the regex
has no `g` flag, so only the first unsafe character is escaped. -/
def escapeFirstUnsafe : Str → Str
  | [] => []
  | c :: rest =>
    if isUnsafeRegexChar c then '\\' :: c :: rest else c :: escapeFirstUnsafe rest

/-- Interpret the pattern text built by `getTableColumnRegex` as a regex.
A backslash-escaped character is a literal; a raw `.` is the
any-character class and a raw `$` the end anchor — the only raw
metacharacters an identifier-shaped column name can leave in the pattern,
since only its first unsafe character gets escaped.  Other raw
metacharacters, reachable only through exotic double-quoted column names
(where `RegExp` construction may even throw), are modelled as literals. -/
def interpColumnPattern : Str → RE
  | [] => .eps
  | '\\' :: c :: rest => .seqn (rchar c) (interpColumnPattern rest)
  | '.' :: rest => .seqn rdot (interpColumnPattern rest)
  | '$' :: rest => .seqn .eos (interpColumnPattern rest)
  | c :: rest => .seqn (rchar c) (interpColumnPattern rest)

/-- `Parser.getTableColumnRegex(column).test(statement)`: the pattern is
`'^\s*' + escaped column + '\s+'`, anchored at position 0.  (The regex
cache of the source is a memoisation with no observable effect.) -/
def columnRegexTest (column statement : Str) : Bool :=
  (tryAt (rseq [rwsStar, interpColumnPattern (escapeFirstUnsafe column), rws1])
    statement 0).isSome

/-- The result of `Parser.findTableColumnDefinition`. -/
structure ColDef where
  definition : Str
  startPos : Nat
  endPos : Nat
  deriving DecidableEq, Repr

/-- `Parser.findTableColumnDefinition`.  The replace of `/[,\s]+$/` by the
empty string removes the maximal trailing run of commas and whitespace. -/
def findTableColumnDefinition (tableDefinition : Str) (column : Str) : Option ColDef :=
  match execRE tableHeaderRegex tableDefinition with
  | none => none
  | some hm =>
    let firstParenIndex := hm.index + hm.matched.length
    let lastParenIndex := jsLastIndexOfFrom tableDefinition ')' (jsLastIndexOf tableDefinition ';')
    if lastParenIndex = -1 then none
    else
      let tableContents := sliceN tableDefinition (firstParenIndex + 1) lastParenIndex.toNat
      let statements := splitIntoStatements tableContents ','
      match statements.findIdx? (columnRegexTest column) with
      | none => none
      | some i =>
        let def0 := dropTrailWhile (fun c => c = ',' || isJsWs c) (statements.getD i [])
        let startPos0 := firstParenIndex + 1 + ((statements.take i).map List.length).sum
        let endPos := startPos0 + def0.length
        let def1 := def0.dropWhile isJsWs
        some ⟨def1, startPos0 + (def0.length - def1.length), endPos⟩

/-- `Parser.attachSequencesToTable`. -/
def attachSequencesToTable (tableDefinition : Str) (sequences : List ParsedStmt) : Str :=
  sequences.foldl (fun modifiedContent sequence =>
    match findTableColumnDefinition modifiedContent (sequence.column.getD []) with
    | none => modifiedContent
    | some columnDefinition =>
      let columnDefinitionEndPos :=
        match execRE notNullRegex columnDefinition.definition with
        | some m => columnDefinition.endPos - (columnDefinition.definition.length - m.index)
        | none => columnDefinition.endPos
      match execRE sequenceHeaderRegex sequence.definition with
      | none => modifiedContent
      | some hm =>
        let sequenceDefinition :=
          replaceAll parenWsRegex jsTrim
            (replaceAll collapseWsRegex (fun _ => [' '])
              (replaceFirstRE trailingSemiRegex (fun _ => [])
                (sequence.definition.drop (hm.index + hm.matched.length))))
        modifiedContent.take columnDefinitionEndPos ++ ' ' :: sequenceDefinition ++
          modifiedContent.drop columnDefinitionEndPos) tableDefinition

/-- The `while` loop of `attachConstraintsToTable`: the largest index
`< n` holding a non-whitespace character, `-1` if all are whitespace. -/
def lastNonWsBefore (s : Str) : Nat → Int
  | 0 => -1
  | m + 1 => if isJsWs (s.getD m ' ') then lastNonWsBefore s m else (m : Int)

/-- `Parser.attachConstraintsToTable`. -/
def attachConstraintsToTable (tableDefinition : Str) (constraints : List ParsedStmt) : Str :=
  let lastParenIndex := jsLastIndexOfFrom tableDefinition ')' (jsLastIndexOf tableDefinition ';')
  if lastParenIndex = -1 then tableDefinition
  else
    let constraintDefinitions := constraints.map (fun constraint =>
      match execRE constraintDefinitionRegex constraint.definition with
      | some m =>
        str "CONSTRAINT " ++ (getCap m.caps 1).getD [] ++ ' ' :: (getCap m.caps 2).getD []
      | none => constraint.definition)
    if constraintDefinitions = [] then tableDefinition
    else
      let lastContentIndex := lastNonWsBefore tableDefinition lastParenIndex.toNat
      let indentedSeparator := ',' :: '\n' :: (detectIndent tableDefinition).indent
      let constraintText :=
        indentedSeparator ++ List.intercalate indentedSeparator constraintDefinitions
      sliceN tableDefinition 0 (lastContentIndex + 1).toNat ++ constraintText ++
        '\n' :: tableDefinition.drop lastParenIndex.toNat

/-- The per-table bucket of `AttachablesByTable`. -/
structure AttGroup where
  sequences : List ParsedStmt := []
  constraints : List ParsedStmt := []
  indexes : List ParsedStmt := []
  deriving DecidableEq, Repr

/-- The `switch` of `groupAttachablesByTable` (only attachable kinds ever
reach it; other kinds fall through unchanged). -/
def pushAttachable (g : AttGroup) (st : ParsedStmt) : AttGroup :=
  match st.kind with
  | .sequence => { g with sequences := g.sequences ++ [st] }
  | .constraint => { g with constraints := g.constraints ++ [st] }
  | .index => { g with indexes := g.indexes ++ [st] }
  | _ => g

/-- `Parser.groupAttachablesByTable`, the accumulator object as an
association list in insertion order. -/
def groupAttachablesByTable (attachableStatements : List ParsedStmt) : List (Str × AttGroup) :=
  attachableStatements.foldl (fun acc statement =>
    let qualifiedTable := makeQualifiedName statement.schema (statement.table.getD [])
    if acc.any (fun p => p.1 == qualifiedTable) then
      acc.map (fun p =>
        if p.1 = qualifiedTable then (p.1, pushAttachable p.2 statement) else p)
    else acc ++ [(qualifiedTable, pushAttachable ⟨[], [], []⟩ statement)]) []

/-- `attachablesByTable[qualifiedTable]`. -/
def lookupGroup (byTable : List (Str × AttGroup)) (key : Str) : Option AttGroup :=
  (byTable.find? (fun p => p.1 == key)).map (·.2)

/-- The body of the `for` loop of `Parser.attachObjectsToTables` for one
object (the in-place mutation rendered functionally). -/
def attachToObject (attachablesByTable : List (Str × AttGroup)) (object : DBObject) :
    DBObject :=
  if object.kind = .table ∨ object.kind = .view then
    match lookupGroup attachablesByTable (makeQualifiedName object.schema object.name) with
    | none => object
    | some tableAttachables =>
      let object :=
        if tableAttachables.sequences.length > 0 then
          { object with
            sequences := some (tableAttachables.sequences.map (·.definition)),
            definition := attachSequencesToTable object.definition tableAttachables.sequences }
        else object
      let object :=
        if tableAttachables.constraints.length > 0 then
          { object with
            constraints := some (tableAttachables.constraints.map (·.definition)),
            definition := attachConstraintsToTable object.definition
              tableAttachables.constraints }
        else object
      if tableAttachables.indexes.length > 0 then
        let indexDefinitions := tableAttachables.indexes.map (·.definition)
        { object with
          indexes := some indexDefinitions,
          definition := object.definition ++ '\n' :: '\n' ::
            List.intercalate ['\n'] indexDefinitions }
      else object
  else object

/-- `Parser.attachObjectsToTables`. -/
def attachObjectsToTables (objects : List DBObject)
    (attachableStatements : List ParsedStmt) : List DBObject :=
  let attachablesByTable := groupAttachablesByTable attachableStatements
  objects.map (attachToObject attachablesByTable)

/-! ## Parse orchestrator (`Parser.parse`) -/

/-- The three accumulators of `Parser.parse`. -/
structure ClassifyAcc where
  objects : List DBObject := []
  attachableStatements : List ParsedStmt := []
  residual : List Str := []
  deriving DecidableEq, Repr

/-- The attachable kinds routed to the side list. -/
def isAttachableKind (k : ObjKind) : Bool :=
  k = .sequence || k = .constraint || k = .index

/-- One iteration of the statement loop of `Parser.parse`.  A present
`parsed.residual` is always non-empty (it is a non-trivial prefix), so
the JavaScript truthiness test is the `some` test. -/
def classifyStep (acc : ClassifyAcc) (statement : Str) : ClassifyAcc :=
  let trimmed := jsTrim statement
  if trimmed = [] then acc
  else
    match parseStatement trimmed with
    | some parsed =>
      let acc1 :=
        if isAttachableKind parsed.kind then
          { acc with attachableStatements := acc.attachableStatements ++ [parsed] }
        else if parsed.kind = .schema then
          { acc with objects := acc.objects ++
              [{ kind := parsed.kind, schema := parsed.schema, name := parsed.name,
                 definition := parsed.definition }] }
        else
          { acc with objects := acc.objects ++
              [{ kind := parsed.kind, schema := parsed.schema, name := parsed.name,
                 qualifiedName := parsed.qualifiedName,
                 definition := parsed.definition }] }
      match parsed.residual with
      | some r => { acc1 with residual := acc1.residual ++ [r] }
      | none => acc1
    | none => { acc with residual := acc.residual ++ [statement] }

/-- The classification phase of `Parser.parse` (everything before the
attachment pass). -/
def classifyStatements (statements : List Str) : ClassifyAcc :=
  statements.foldl classifyStep ⟨[], [], []⟩

/-- `Parser.parse`. -/
def parse (content : Str) : ParseResult :=
  let acc := classifyStatements (splitIntoStatements content ';')
  { objects := attachObjectsToTables acc.objects acc.attachableStatements,
    residual := jsTrim (List.intercalate ['\n'] acc.residual) }

/-! ## Spec-modelled variants (for the refinement comparisons) -/

/-- Modelled from the spec: the `GENERATED {ALWAYS|BY DEFAULT} AS
IDENTITY` header named by §4.3 step 3. -/
def specIdentityHeaderRegex : RE :=
  rseq [rstri (str "GENERATED"), rws1,
        .alt (rstri (str "ALWAYS")) (rseq [rstri (str "BY"), rws1, rstri (str "DEFAULT")]),
        rws1, rstri (str "AS"), rws1, rstri (str "IDENTITY"), rws1]

/-- Modelled from the spec: §4.3 step 3 ("Strip the sequence statement
down to only the parenthesized option list following the `GENERATED ...
AS IDENTITY` header") — identical to `attachSequencesToTable` except
that the spliced text starts after the `GENERATED ... AS IDENTITY`
header instead of after the `ALTER TABLE ... ADD ` prefix. -/
def attachSequencesToTableSpec (tableDefinition : Str) (sequences : List ParsedStmt) : Str :=
  sequences.foldl (fun modifiedContent sequence =>
    match findTableColumnDefinition modifiedContent (sequence.column.getD []) with
    | none => modifiedContent
    | some columnDefinition =>
      let columnDefinitionEndPos :=
        match execRE notNullRegex columnDefinition.definition with
        | some m => columnDefinition.endPos - (columnDefinition.definition.length - m.index)
        | none => columnDefinition.endPos
      match execRE specIdentityHeaderRegex sequence.definition with
      | none => modifiedContent
      | some hm =>
        let sequenceDefinition :=
          replaceAll parenWsRegex jsTrim
            (replaceAll collapseWsRegex (fun _ => [' '])
              (replaceFirstRE trailingSemiRegex (fun _ => [])
                (sequence.definition.drop (hm.index + hm.matched.length))))
        modifiedContent.take columnDefinitionEndPos ++ ' ' :: sequenceDefinition ++
          modifiedContent.drop columnDefinitionEndPos) tableDefinition

/-- Modelled from the spec: §4.3 step 5 ("append each index statement's
full text, separated by blank lines"), i.e. the appended statements are
joined by blank lines. -/
def specAppendIndexes (definition : Str) (indexDefinitions : List Str) : Str :=
  definition ++ '\n' :: '\n' :: List.intercalate (str "\n\n") indexDefinitions

/-! ## Classification piece functions (used to state the bookkeeping claims) -/

/-- The terminal objects one statement contributes during classification
(mirrors the `objects.push` arms of the statement loop of `Parser.parse`). -/
def termObjPieces (statement : Str) : List DBObject :=
  if jsTrim statement = [] then []
  else
    match parseStatement (jsTrim statement) with
    | some parsed =>
      if isAttachableKind parsed.kind then []
      else if parsed.kind = .schema then
        [{ kind := parsed.kind, schema := parsed.schema, name := parsed.name,
           definition := parsed.definition }]
      else
        [{ kind := parsed.kind, schema := parsed.schema, name := parsed.name,
           qualifiedName := parsed.qualifiedName, definition := parsed.definition }]
    | none => []

/-- The attachable statements one statement contributes. -/
def attPieces (statement : Str) : List ParsedStmt :=
  if jsTrim statement = [] then []
  else
    match parseStatement (jsTrim statement) with
    | some parsed => if isAttachableKind parsed.kind then [parsed] else []
    | none => []

/-- The residual fragments one statement contributes: the residual prefix
of a classified statement, or the whole (untrimmed) statement when
unclassified. -/
def resPieces (statement : Str) : List Str :=
  if jsTrim statement = [] then []
  else
    match parseStatement (jsTrim statement) with
    | some parsed =>
      match parsed.residual with
      | some r => [r]
      | none => []
    | none => [statement]

/-- The definition texts one statement contributes (to a terminal object
or to an attachable statement). -/
def defPieces (statement : Str) : List Str :=
  if jsTrim statement = [] then []
  else
    match parseStatement (jsTrim statement) with
    | some parsed => [parsed.definition]
    | none => []


/-! ## Concrete inputs used by the scenario theorems and their witnesses -/

/-- Table definition for the sequence-splicing scenario (claim 4). -/
def c4TableDef : Str :=
  str "CREATE TABLE public.users (\n    id integer NOT NULL,\n    name text\n);"

/-- Identity-sequence statement for the sequence-splicing scenario (claim 4). -/
def c4Sequence : ParsedStmt :=
  { kind := .sequence, schema := str "public", name := str "users_id_seq",
    qualifiedName := some (str "public.users_id_seq"),
    tableSchema := some (str "public"), table := some (str "users"),
    column := some (str "id"),
    definition := str "ALTER TABLE ONLY public.users ALTER COLUMN id ADD GENERATED ALWAYS AS IDENTITY (\n    SEQUENCE NAME public.users_id_seq\n    START WITH 1\n);" }

/-- First index statement for the index-append scenario (claim 5). -/
def c5Index1 : ParsedStmt :=
  { kind := .index, schema := str "public", name := str "i1",
    qualifiedName := some (str "public.i1"), table := some (str "t"),
    definition := str "CREATE INDEX i1 ON public.t (a);" }

/-- Second index statement for the index-append scenario (claim 5). -/
def c5Index2 : ParsedStmt :=
  { kind := .index, schema := str "public", name := str "i2",
    qualifiedName := some (str "public.i2"), table := some (str "t"),
    definition := str "CREATE INDEX i2 ON public.t (b);" }

/-- Table object for the index-append scenario (claim 5). -/
def c5Table : DBObject :=
  { kind := .table, schema := str "public", name := str "t",
    qualifiedName := some (str "public.t"),
    definition := str "CREATE TABLE public.t (a int, b int);" }

/-- Constraint statement for the amended index-append witness (claim 5):
its presence makes the table definition constraint-modified before the
index step runs. -/
def c5Constraint : ParsedStmt :=
  { kind := .constraint, schema := str "public", name := str "t_pkey",
    qualifiedName := some (str "public.t_pkey"), table := some (str "t"),
    definition := str "ALTER TABLE ONLY public.t ADD CONSTRAINT t_pkey PRIMARY KEY (a);" }

/-- The classified constraint statement of the claim 3 scenario. -/
def c3Constraint : ParsedStmt :=
  { kind := .constraint, schema := str "public", name := str "users_pkey",
    qualifiedName := some (str "public.users_pkey"), table := some (str "users"),
    definition := str "ALTER TABLE ONLY public.users ADD CONSTRAINT users_pkey PRIMARY KEY (id);" }

end PgDump





namespace PgDump

/-! ## Tokenizer lemmas -/

theorem tagIdentCandidate_prefix (rest : Str) : tagIdentCandidate rest <+: rest := by
  cases rest with
  | nil => simp [tagIdentCandidate]
  | cons c cs =>
    simp only [tagIdentCandidate]
    split
    · exact List.cons_prefix_cons.mpr ⟨rfl, List.takeWhile_prefix _⟩
    · exact List.nil_prefix

theorem dollarTagIdent_spec {s ident : Str} (h : dollarTagIdent s = some ident) :
    ∃ tail, s = '$' :: (ident ++ '$' :: tail) := by
  cases s with
  | nil => simp [dollarTagIdent] at h
  | cons c rest =>
    simp only [dollarTagIdent] at h
    by_cases hc : c = '$'
    · subst hc
      rcases hdrop : rest.drop (tagIdentCandidate rest).length with _ | ⟨d, tl⟩ <;>
        rw [hdrop] at h
      · simp at h
      · by_cases hd : d = '$'
        · subst hd
          simp at h
          subst h
          refine ⟨tl, ?_⟩
          have hpre := tagIdentCandidate_prefix rest
          have htake : rest.take (tagIdentCandidate rest).length = tagIdentCandidate rest :=
            (List.prefix_iff_eq_take.mp hpre).symm
          have hsplit := List.take_append_drop (tagIdentCandidate rest).length rest
          rw [htake, hdrop] at hsplit
          rw [hsplit]
        · simp [hd] at h
    · simp [hc] at h

private lemma drop_tag (ident tail : Str) :
    ('$' :: (ident ++ '$' :: tail)).drop (ident.length + 2) = tail := by
  have h1 : ('$' :: (ident ++ '$' :: tail)) = ('$' :: ident ++ ['$']) ++ tail := by simp
  have h2 : ('$' :: ident ++ ['$']).length = ident.length + 2 := by simp
  rw [h1, ← h2, List.drop_left]

theorem splitLoopF_join (sep : Char) :
    ∀ (fuel : Nat) (rem cur : Str) (acc : List Str) (a b c d : Bool),
    (splitLoopF sep fuel rem cur acc a b c d).flatten = acc.flatten ++ cur ++ rem := by
  intro fuel
  induction fuel with
  | zero =>
    intro rem cur acc a b c d
    cases rem with
    | nil => by_cases hcur : cur = [] <;> simp [splitLoopF, hcur]
    | cons ch rest => simp [splitLoopF]
  | succ n ih =>
    intro rem cur acc a b c d
    cases rem with
    | nil => by_cases hcur : cur = [] <;> simp [splitLoopF, hcur]
    | cons ch rest =>
      simp only [splitLoopF]
      split
      · -- dollar-quote branch
        rename_i hch
        cases htag : dollarTagIdent (ch :: rest) with
        | some ident =>
          simp only [htag]
          cases hfind : jsIndexOfFrom (ch :: rest) ('$' :: (ident ++ ['$']))
              (ident.length + 2) with
          | some closePos =>
            simp only [hfind, ih]
            simp [List.append_assoc, List.take_append_drop]
          | none =>
            simp only [hfind, ih]
            obtain ⟨tail, htail⟩ := dollarTagIdent_spec htag
            rw [htail, drop_tag]
            simp
        | none => simp [htag, ih]
      · split
        · -- start of a dash comment
          rename_i hcond
          simp only [Bool.and_eq_true, decide_eq_true_eq] at hcond
          obtain ⟨⟨hpre, hch⟩, hhead⟩ := hcond
          cases rest with
          | nil => simp at hhead
          | cons c2 t =>
            simp only [List.head?_cons, Option.some.injEq] at hhead
            simp [ih, hch, hhead]
        · split
          · -- start of a block comment
            rename_i hcond
            simp only [Bool.and_eq_true, decide_eq_true_eq] at hcond
            obtain ⟨⟨hpre, hch⟩, hhead⟩ := hcond
            cases rest with
            | nil => simp at hhead
            | cons c2 t =>
              simp only [List.head?_cons, Option.some.injEq] at hhead
              simp [ih, hch, hhead]
          · split
            · -- inside a dash comment
              simp [ih]
            · split
              · -- inside a block comment
                split
                · rename_i hcond
                  simp only [Bool.and_eq_true, decide_eq_true_eq] at hcond
                  obtain ⟨hch, hhead⟩ := hcond
                  cases rest with
                  | nil => simp at hhead
                  | cons c2 t =>
                    simp only [List.head?_cons, Option.some.injEq] at hhead
                    simp [ih, hch, hhead]
                · simp [ih]
              · -- quote handling and separator: the two flag updates and the
                -- push test are three nested ifs
                split <;> split <;> split <;>
                  first
                  | (rename_i hpush
                     simp only [Bool.and_eq_true, decide_eq_true_eq] at hpush
                     rw [ih, hpush.2]
                     simp)
                  | (rw [ih]; simp)

theorem splitLoopF_all_ne_nil (sep : Char) :
    ∀ (fuel : Nat) (rem cur : Str) (acc : List Str) (a b c d : Bool),
    (∀ st ∈ acc, st ≠ []) →
    ∀ st ∈ splitLoopF sep fuel rem cur acc a b c d, st ≠ [] := by
  intro fuel
  induction fuel with
  | zero =>
    intro rem cur acc a b c d hacc st hst
    cases rem with
    | nil =>
      by_cases hcur : cur = []
      · simp [splitLoopF, hcur] at hst; exact hacc st hst
      · simp [splitLoopF, hcur] at hst
        rcases hst with hst | hst
        · exact hacc st hst
        · simp [hst, hcur]
    | cons ch rest =>
      simp [splitLoopF] at hst
      rcases hst with hst | hst
      · exact hacc st hst
      · simp [hst]
  | succ n ih =>
    intro rem cur acc a b c d hacc st hst
    cases rem with
    | nil =>
      by_cases hcur : cur = []
      · simp [splitLoopF, hcur] at hst; exact hacc st hst
      · simp [splitLoopF, hcur] at hst
        rcases hst with hst | hst
        · exact hacc st hst
        · simp [hst, hcur]
    | cons ch rest =>
      simp only [splitLoopF] at hst
      revert hst
      split
      · cases htag : dollarTagIdent (ch :: rest) with
        | some ident =>
          simp only [htag]
          cases hfind : jsIndexOfFrom (ch :: rest) ('$' :: (ident ++ ['$']))
              (ident.length + 2) with
          | some closePos => exact fun hst => ih _ _ _ _ _ _ _ hacc st hst
          | none => exact fun hst => ih _ _ _ _ _ _ _ hacc st hst
        | none => exact fun hst => ih _ _ _ _ _ _ _ hacc st hst
      · split
        · exact fun hst => ih _ _ _ _ _ _ _ hacc st hst
        · split
          · exact fun hst => ih _ _ _ _ _ _ _ hacc st hst
          · split
            · exact fun hst => ih _ _ _ _ _ _ _ hacc st hst
            · split
              · split
                · exact fun hst => ih _ _ _ _ _ _ _ hacc st hst
                · exact fun hst => ih _ _ _ _ _ _ _ hacc st hst
              · split <;> split <;> split <;>
                  first
                  | (refine fun hst => ih _ _ _ _ _ _ _ ?_ st hst
                     intro st2 hst2
                     rcases List.mem_append.mp hst2 with hst2 | hst2
                     · exact hacc st2 hst2
                     · simp only [List.mem_singleton] at hst2
                       simp [hst2])
                  | exact fun hst => ih _ _ _ _ _ _ _ hacc st hst

theorem splitIntoStatements_join (content : Str) (sep : Char) :
    (splitIntoStatements content sep).flatten = content := by
  have h := splitLoopF_join sep content.length content [] [] false false false false
  simpa [splitIntoStatements] using h

theorem splitIntoStatements_ne_nil (content : Str) (sep : Char) :
    ∀ st ∈ splitIntoStatements content sep, st ≠ [] := by
  have h := splitLoopF_all_ne_nil sep content.length content [] [] false false false false
  simp only [splitIntoStatements]
  exact h (by simp)

end PgDump

namespace PgDump

/-! ## Whitespace and trim lemmas -/

private lemma filter_dropWhile (p : Char → Bool) (s : Str) :
    (s.dropWhile p).filter (fun c => !p c) = s.filter (fun c => !p c) := by
  induction s with
  | nil => simp
  | cons c t ih =>
    by_cases hc : p c = true <;> simp [List.dropWhile_cons, List.filter_cons, hc, ih]

private lemma filter_dropTrailWhile (p : Char → Bool) (s : Str) :
    (dropTrailWhile p s).filter (fun c => !p c) = s.filter (fun c => !p c) := by
  have h := filter_dropWhile p s.reverse
  simpa [dropTrailWhile, List.filter_reverse, List.reverse_eq_iff] using congrArg List.reverse h

theorem filter_jsTrim (s : Str) :
    (jsTrim s).filter (fun c => !isJsWs c) = s.filter (fun c => !isJsWs c) := by
  rw [jsTrim, filter_dropTrailWhile, filter_dropWhile]

/-! ## Classifier lemmas -/

theorem extractDefinition_recover (i : Nat) (s : Str) :
    ((extractDefinition i s).2.getD []) ++ (extractDefinition i s).1 = s := by
  by_cases h : i ≠ 0 <;> simp [extractDefinition, h, List.take_append_drop]

theorem parseStatement_recover {s : Str} {p : ParsedStmt}
    (h : parseStatement s = some p) :
    (p.residual.getD []) ++ p.definition = s := by
  simp only [parseStatement] at h
  repeat' split at h
  all_goals try exact Option.noConfusion h
  all_goals injection h with h
  all_goals
    subst h
    simp [schemaParse, extensionParse, generalParse, sequenceParse, constraintParse,
          indexParse, extractDefinition_recover]

/-! ## Classification-phase bookkeeping -/

theorem classifyStep_spec (acc : ClassifyAcc) (st : Str) :
    classifyStep acc st =
      ⟨acc.objects ++ termObjPieces st, acc.attachableStatements ++ attPieces st,
       acc.residual ++ resPieces st⟩ := by
  simp only [classifyStep, termObjPieces, attPieces, resPieces]
  split
  · simp
  · cases hp : parseStatement (jsTrim st) with
    | none => simp
    | some parsed =>
      rcases hres : parsed.residual with _ | r <;>
        cases hk : parsed.kind <;>
          simp [hres, hk, isAttachableKind]

theorem classifyStatements_spec (sts : List Str) :
    classifyStatements sts =
      ⟨(sts.map termObjPieces).flatten, (sts.map attPieces).flatten,
       (sts.map resPieces).flatten⟩ := by
  suffices h : ∀ acc : ClassifyAcc, sts.foldl classifyStep acc =
      ⟨acc.objects ++ (sts.map termObjPieces).flatten,
       acc.attachableStatements ++ (sts.map attPieces).flatten,
       acc.residual ++ (sts.map resPieces).flatten⟩ by
    simpa [classifyStatements] using h ⟨[], [], []⟩
  induction sts with
  | nil => intro acc; simp
  | cons st t ih =>
    intro acc
    simp only [List.foldl_cons, ih, classifyStep_spec, List.map_cons, List.flatten_cons]
    simp [List.append_assoc]

theorem defPieces_split (st : Str) :
    (termObjPieces st).map (fun ob => ob.definition) ++
      (attPieces st).map (fun p => p.definition) = defPieces st := by
  simp only [termObjPieces, attPieces, defPieces]
  split
  · simp
  · cases hp : parseStatement (jsTrim st) with
    | none => simp
    | some parsed =>
      cases hk : parsed.kind <;> simp [hk, isAttachableKind]

theorem pieces_account (st : Str) :
    ((resPieces st ++ defPieces st).flatten).filter (fun c => !isJsWs c) =
      st.filter (fun c => !isJsWs c) := by
  unfold resPieces defPieces
  split
  · rename_i htrim
    have h := filter_jsTrim st
    rw [htrim] at h
    simpa using h.symm
  · cases hp : parseStatement (jsTrim st) with
    | none => simp
    | some parsed =>
      have hrec := parseStatement_recover hp
      rcases hres : parsed.residual with _ | r <;> rw [hres] at hrec <;>
        simp only [Option.getD_none, Option.getD_some, List.nil_append] at hrec <;>
        simp only [hp, hres, List.nil_append, List.cons_append, List.flatten_cons,
          List.flatten_nil, List.append_nil]
      · rw [hrec]
        exact filter_jsTrim st
      · rw [hrec]
        exact filter_jsTrim st

theorem reconstruction_over (sts : List Str) :
    ((sts.map (fun st => resPieces st ++ defPieces st)).flatten.flatten).filter
        (fun c => !isJsWs c) =
      (sts.flatten).filter (fun c => !isJsWs c) := by
  induction sts with
  | nil => simp
  | cons st t ih =>
    simp only [List.map_cons, List.flatten_cons, List.flatten_append, List.filter_append]
    have h := pieces_account st
    rw [List.flatten_append, List.filter_append] at h
    rw [h, ih]

end PgDump

namespace PgDump

/-! ## Tokenizer step lemmas (dollar quotes, separators) -/

theorem splitLoopF_closed_dollar (sep : Char) (fuel : Nat) (rem cur : Str)
    (acc : List Str) (a b c d : Bool) (ident : Str) (closePos : Nat)
    (htag : dollarTagIdent rem = some ident)
    (hfind : jsIndexOfFrom rem ('$' :: (ident ++ ['$'])) (ident.length + 2) = some closePos) :
    splitLoopF sep (fuel + 1) rem cur acc a b c d =
      splitLoopF sep fuel (rem.drop (closePos + (ident.length + 2)))
        (cur ++ rem.take (closePos + (ident.length + 2))) acc a b c d := by
  obtain ⟨tail, htail⟩ := dollarTagIdent_spec htag
  subst htail
  simp [splitLoopF, htag, hfind]

theorem splitLoopF_unclosed_dollar (sep : Char) (fuel : Nat) (rem cur : Str)
    (acc : List Str) (a b c d : Bool) (ident : Str)
    (htag : dollarTagIdent rem = some ident)
    (hfind : jsIndexOfFrom rem ('$' :: (ident ++ ['$'])) (ident.length + 2) = none) :
    splitLoopF sep (fuel + 1) rem cur acc a b c d =
      splitLoopF sep fuel (rem.drop (ident.length + 2))
        (cur ++ '$' :: (ident ++ ['$'])) acc a b c d := by
  obtain ⟨tail, htail⟩ := dollarTagIdent_spec htag
  subst htail
  simp [splitLoopF, htag, hfind]

theorem splitLoopF_sep_non_normal (fuel : Nat) (rest cur : Str) (acc : List Str)
    (dsh blk sq dq : Bool) (h : (dsh || blk || sq || dq) = true) :
    splitLoopF ';' (fuel + 1) (';' :: rest) cur acc dsh blk sq dq =
      splitLoopF ';' fuel rest (cur ++ [';']) acc dsh blk sq dq := by
  cases dsh <;> cases blk <;> cases sq <;> cases dq <;> first | rfl | simp at h

/-! ## Attachment-engine lemmas -/

theorem attachToObject_nil (ob : DBObject) : attachToObject [] ob = ob := by
  rw [attachToObject]
  split <;> rfl

theorem attachObjectsToTables_nil (objects : List DBObject) :
    attachObjectsToTables objects [] = objects := by
  have hmap : ∀ l : List DBObject, l.map (attachToObject []) = l := by
    intro l
    induction l with
    | nil => rfl
    | cons ob t ih => simp only [List.map_cons, attachToObject_nil, ih]
  show objects.map (attachToObject []) = objects
  exact hmap objects

theorem attachToObject_frame (g : List (Str × AttGroup)) (ob : DBObject)
    (h1 : ob.kind ≠ ObjKind.table) (h2 : ob.kind ≠ ObjKind.view) :
    attachToObject g ob = ob := by
  rw [attachToObject, if_neg]
  rintro (h | h)
  · exact h1 h
  · exact h2 h

theorem attachToObject_unmatched (g : List (Str × AttGroup)) (ob : DBObject)
    (h : lookupGroup g (makeQualifiedName ob.schema ob.name) = none) :
    attachToObject g ob = ob := by
  simp [attachToObject, h]

theorem attachToObject_indexes_only (g : List (Str × AttGroup)) (ob : DBObject)
    (grp : AttGroup)
    (hk : ob.kind = ObjKind.table ∨ ob.kind = ObjKind.view)
    (hg : lookupGroup g (makeQualifiedName ob.schema ob.name) = some grp)
    (hseq : grp.sequences = []) (hcon : grp.constraints = [])
    (hidx : grp.indexes ≠ []) :
    attachToObject g ob =
      { ob with
        indexes := some (grp.indexes.map (fun st => st.definition)),
        definition := ob.definition ++ '\n' :: '\n' ::
          List.intercalate ['\n'] (grp.indexes.map (fun st => st.definition)) } := by
  have hlen : 0 < grp.indexes.length := List.length_pos.mpr hidx
  simp [attachToObject, hk, hg, hseq, hcon, hlen]

theorem attachSequencesToTable_single (tdef : Str) (seq : ParsedStmt) (cd : ColDef)
    (hm : REMatch)
    (hcol : findTableColumnDefinition tdef (seq.column.getD []) = some cd)
    (hhdr : execRE sequenceHeaderRegex seq.definition = some hm) :
    attachSequencesToTable tdef [seq] =
      (let ep := match execRE notNullRegex cd.definition with
        | some m => cd.endPos - (cd.definition.length - m.index)
        | none => cd.endPos
      tdef.take ep ++ ' ' ::
        replaceAll parenWsRegex jsTrim
          (replaceAll collapseWsRegex (fun _ => [' '])
            (replaceFirstRE trailingSemiRegex (fun _ => [])
              (seq.definition.drop (hm.index + hm.matched.length)))) ++
        tdef.drop ep) := by
  simp only [attachSequencesToTable, List.foldl_cons, List.foldl_nil, hcol, hhdr]

/-! ## The while loop of the constraint insertion point -/

private lemma dropTrailWhile_concat_pos {p : Char → Bool} {x : Char} (l : Str)
    (h : p x = true) : dropTrailWhile p (l ++ [x]) = dropTrailWhile p l := by
  simp [dropTrailWhile, List.dropWhile, h]

private lemma dropTrailWhile_concat_neg {p : Char → Bool} {x : Char} (l : Str)
    (h : p x = false) : dropTrailWhile p (l ++ [x]) = l ++ [x] := by
  simp [dropTrailWhile, List.dropWhile, h]

theorem take_lastNonWsBefore (s : Str) :
    ∀ n, n ≤ s.length →
    sliceN s 0 ((lastNonWsBefore s n + 1).toNat) = dropTrailWhile isJsWs (s.take n) := by
  intro n
  induction n with
  | zero =>
    intro _
    show sliceN s 0 (((-1 : Int) + 1).toNat) = dropTrailWhile isJsWs (s.take 0)
    simp [sliceN, dropTrailWhile]
  | succ m ih =>
    intro hle
    have hm : m < s.length := hle
    have htake : s.take (m + 1) = s.take m ++ [s[m]] := by
      rw [List.take_succ]
      simp [List.getElem?_eq_getElem hm]
    have hgetD : s.getD m ' ' = s[m] := by
      simp [List.getD, List.getElem?_eq_getElem hm]
    simp only [lastNonWsBefore, hgetD]
    by_cases hws : isJsWs s[m] = true
    · rw [if_pos hws, ih (le_of_lt hm), htake, dropTrailWhile_concat_pos _ hws]
    · rw [if_neg hws, htake,
        dropTrailWhile_concat_neg _ (Bool.not_eq_true _ ▸ hws)]
      have htn : ((m : Int) + 1).toNat = m + 1 := by omega
      show (s.take (((m : Int) + 1).toNat)).drop 0 = _
      rw [htn, List.drop_zero, htake]

private lemma jsLastIndexOfUpTo_toNat_lt {s : Str} {c : Char} {upTo : Nat} {k : Nat}
    (h : jsLastIndexOfUpTo s c upTo = (k : Int)) : k < s.length := by
  unfold jsLastIndexOfUpTo at h
  rcases hl : ((List.range s.length).filter
      (fun j => j ≤ upTo && s[j]? = some c)).getLast? with _ | k2 <;>
    rw [hl] at h <;> simp at h
  have hk2 : k2 = k := by omega
  subst hk2
  have hopt : k2 ∈ ((List.range s.length).filter
      (fun j => j ≤ upTo && s[j]? = some c)).getLast? := Option.mem_def.mpr hl
  obtain ⟨hne, heq⟩ := List.mem_getLast?_eq_getLast hopt
  have hmem : k2 ∈ (List.range s.length).filter
      (fun j => j ≤ upTo && s[j]? = some c) := by
    rw [heq]; exact List.getLast_mem hne
  exact List.mem_range.mp (List.mem_filter.mp hmem).1

theorem attachConstraintsToTable_shape (tdef : Str) (cs : List ParsedStmt) (lp : Nat)
    (hlp : jsLastIndexOfFrom tdef ')' (jsLastIndexOf tdef ';') = (lp : Int))
    (hcs : cs ≠ []) :
    attachConstraintsToTable tdef cs =
      dropTrailWhile isJsWs (tdef.take lp) ++
        (',' :: '\n' :: (detectIndent tdef).indent) ++
        List.intercalate (',' :: '\n' :: (detectIndent tdef).indent)
          (cs.map (fun constraint =>
            match execRE constraintDefinitionRegex constraint.definition with
            | some m => str "CONSTRAINT " ++ (getCap m.caps 1).getD [] ++ ' ' ::
                (getCap m.caps 2).getD []
            | none => constraint.definition)) ++
        '\n' :: tdef.drop lp := by
  have hlt : lp < tdef.length := jsLastIndexOfUpTo_toNat_lt hlp
  unfold attachConstraintsToTable
  rw [hlp, if_neg (by omega)]
  rw [if_neg (by simpa using hcs)]
  have htn : ((lp : Int)).toNat = lp := by omega
  rw [htn]
  simp only [take_lastNonWsBefore tdef lp (le_of_lt hlt), List.append_assoc]

/-! ## Classifier-output bookkeeping for the frame claims -/

theorem termObjPieces_fields (st : Str) :
    ∀ ob ∈ termObjPieces st,
      ob.sequences = none ∧ ob.constraints = none ∧ ob.indexes = none := by
  intro ob hob
  unfold termObjPieces at hob
  repeat' split at hob
  all_goals
    first
    | exact absurd hob (List.not_mem_nil _)
    | (rw [List.mem_singleton] at hob
       subst hob
       exact ⟨rfl, rfl, rfl⟩)

theorem generalParse_default_schema (kind : ObjKind) (m : REMatch) (statement : Str)
    (h : getCap m.caps 1 = none) :
    (generalParse kind m statement).schema = str "public" ∧
    (generalParse kind m statement).qualifiedName =
      some (str "public" ++ '.' :: (getCap m.caps 2).getD []) := by
  simp [generalParse, h, makeQualifiedName, DEFAULT_SCHEMA]

end PgDump

namespace PgDump

/-! ## Remaining helper lemmas for the claims -/

private lemma parseStatement_nil : parseStatement [] = none := by decide

theorem termObjPieces_attachable (st : Str) (p : ParsedStmt)
    (hp : parseStatement (jsTrim st) = some p)
    (hatt : isAttachableKind p.kind = true) :
    termObjPieces st = [] := by
  unfold termObjPieces
  split
  · rfl
  · simp [hp, hatt]

theorem resPieces_classified (st : Str) (p : ParsedStmt)
    (hp : parseStatement (jsTrim st) = some p) :
    resPieces st = (match p.residual with | some r => [r] | none => []) := by
  unfold resPieces
  split
  · rename_i htrim
    rw [htrim, parseStatement_nil] at hp
    exact Option.noConfusion hp
  · simp [hp]

end PgDump

namespace PgDump

/-! # The claims -/

/-- C1: at tokenization/classification time every non-whitespace byte of
the dump is accounted for exactly once, in source order.  Concatenating,
statement by statement, the residual prefix and the definition text each
classified statement yields (terminal object or attachable alike),
together with each unclassified statement verbatim, reconstructs a string
equal to the original dump up to whitespace at statement boundaries
(formally: the subsequences of non-whitespace characters coincide, so no
non-whitespace byte is dropped or duplicated); and the classification
phase's object list, attachable list and residual list are exactly those
pieces in source order. -/
theorem claim1_byte_accounting :
    (∀ content : Str,
      (((splitIntoStatements content ';').map
          (fun st => resPieces st ++ defPieces st)).flatten.flatten).filter
          (fun c => !isJsWs c) =
        content.filter (fun c => !isJsWs c)) ∧
    (∀ statements : List Str,
      classifyStatements statements =
        ⟨(statements.map termObjPieces).flatten, (statements.map attPieces).flatten,
         (statements.map resPieces).flatten⟩) ∧
    (∀ st : Str,
      (termObjPieces st).map (fun ob => ob.definition) ++
        (attPieces st).map (fun p => p.definition) = defPieces st) := by
  refine ⟨fun content => ?_, classifyStatements_spec, defPieces_split⟩
  rw [reconstruction_over, splitIntoStatements_join]

/-- C2: a semicolon inside a matched dollar-quote pair is not a statement
boundary: `do $$ x; y $$;next` tokenizes as one statement plus `next`, a
`$tag$ ... $tag$` span containing an inner differently-tagged `$$ ... $$`
pair is consumed atomically as opaque text (the scanner jumps over the
whole span verbatim without re-scanning its interior), and the separator
character ends a statement only in the Normal state: one scan step on a
separator with any of the dash-comment, block-comment, single-quote or
double-quote flags set appends the separator to the current statement and
emits nothing. -/
theorem claim2_dollar_quote_atomic :
    splitIntoStatements (str "do $$ x; y $$;next") ';' =
      [str "do $$ x; y $$;", str "next"] ∧
    splitIntoStatements (str "$tag$ a; $$ b; $$ c $tag$;X") ';' =
      [str "$tag$ a; $$ b; $$ c $tag$;", str "X"] ∧
    (∀ (fuel : Nat) (rem cur : Str) (acc : List Str) (a b c d : Bool)
        (ident : Str) (closePos : Nat),
      dollarTagIdent rem = some ident →
      jsIndexOfFrom rem ('$' :: (ident ++ ['$'])) (ident.length + 2) = some closePos →
      splitLoopF ';' (fuel + 1) rem cur acc a b c d =
        splitLoopF ';' fuel (rem.drop (closePos + (ident.length + 2)))
          (cur ++ rem.take (closePos + (ident.length + 2))) acc a b c d) ∧
    (∀ (fuel : Nat) (rest cur : Str) (acc : List Str) (dsh blk sq dq : Bool),
      (dsh || blk || sq || dq) = true →
      splitLoopF ';' (fuel + 1) (';' :: rest) cur acc dsh blk sq dq =
        splitLoopF ';' fuel rest (cur ++ [';']) acc dsh blk sq dq) :=
  ⟨by decide, by decide,
   fun fuel rem cur acc a b c d ident closePos h1 h2 =>
     splitLoopF_closed_dollar ';' fuel rem cur acc a b c d ident closePos h1 h2,
   splitLoopF_sep_non_normal⟩

/-- Witness for C2: the general conjuncts instantiated at the input
`$$x;y$$;` (closed dollar quote spanning positions 0..6) and at a scan
step on `;` inside a dash comment. -/
theorem claim2_dollar_quote_atomic_witness :
    (splitLoopF ';' 8 (str "$$x;y$$;") [] [] false false false false =
      splitLoopF ';' 7 ((str "$$x;y$$;").drop 7)
        ([] ++ (str "$$x;y$$;").take 7) [] false false false false) ∧
    (splitLoopF ';' 3 (';' :: str "ab") [] [] true false false false =
      splitLoopF ';' 2 (str "ab") ([] ++ [';']) [] true false false false) :=
  ⟨claim2_dollar_quote_atomic.2.2.1 7 (str "$$x;y$$;") [] [] false false false false
      [] 5 rfl rfl,
   claim2_dollar_quote_atomic.2.2.2 2 (str "ab") [] [] true false false false rfl⟩

/-- C3: the two-statement scenario `CREATE TABLE public.users (id int);`
followed by `ALTER TABLE ONLY public.users ADD CONSTRAINT users_pkey
PRIMARY KEY (id);` parses to exactly one table object `public.users`
whose definition has `CONSTRAINT users_pkey PRIMARY KEY (id)` inserted
before the final closing parenthesis, with empty residual; and in general
(whenever the closing parenthesis before the last semicolon exists and
the constraint list is non-empty) each attached constraint statement is
reduced to `CONSTRAINT <name> <definition>` (falling back to its full
text when the reduction pattern does not match), the reduced constraints
are joined by a comma, a newline and the table's detected indentation
string, and the block is inserted immediately after the last
non-whitespace character preceding that closing parenthesis, with a
newline before the parenthesis. -/
theorem claim3_constraint_attachment :
    (parse (str "CREATE TABLE public.users (id int);\nALTER TABLE ONLY public.users ADD CONSTRAINT users_pkey PRIMARY KEY (id);") =
      { objects := [{ kind := .table, schema := str "public", name := str "users",
                      qualifiedName := some (str "public.users"),
                      definition := str "CREATE TABLE public.users (id int,\nCONSTRAINT users_pkey PRIMARY KEY (id)\n);",
                      constraints := some [str "ALTER TABLE ONLY public.users ADD CONSTRAINT users_pkey PRIMARY KEY (id);"] }],
        residual := [] }) ∧
    (∀ (tdef : Str) (cs : List ParsedStmt) (lp : Nat),
      jsLastIndexOfFrom tdef ')' (jsLastIndexOf tdef ';') = (lp : Int) →
      cs ≠ [] →
      attachConstraintsToTable tdef cs =
        dropTrailWhile isJsWs (tdef.take lp) ++
          (',' :: '\n' :: (detectIndent tdef).indent) ++
          List.intercalate (',' :: '\n' :: (detectIndent tdef).indent)
            (cs.map (fun constraint =>
              match execRE constraintDefinitionRegex constraint.definition with
              | some m => str "CONSTRAINT " ++ (getCap m.caps 1).getD [] ++ ' ' ::
                  (getCap m.caps 2).getD []
              | none => constraint.definition)) ++
          '\n' :: tdef.drop lp) :=
  ⟨by decide, attachConstraintsToTable_shape⟩

/-- Witness for C3: the general insertion shape instantiated on the
scenario's table definition and constraint statement (closing parenthesis
at position 33). -/
theorem claim3_constraint_attachment_witness :
    attachConstraintsToTable (str "CREATE TABLE public.users (id int);") [c3Constraint] =
      dropTrailWhile isJsWs ((str "CREATE TABLE public.users (id int);").take 33) ++
        (',' :: '\n' :: (detectIndent (str "CREATE TABLE public.users (id int);")).indent) ++
        List.intercalate
          (',' :: '\n' :: (detectIndent (str "CREATE TABLE public.users (id int);")).indent)
          ([c3Constraint].map (fun constraint =>
            match execRE constraintDefinitionRegex constraint.definition with
            | some m => str "CONSTRAINT " ++ (getCap m.caps 1).getD [] ++ ' ' ::
                (getCap m.caps 2).getD []
            | none => constraint.definition)) ++
        '\n' :: (str "CREATE TABLE public.users (id int);").drop 33 :=
  claim3_constraint_attachment.2 (str "CREATE TABLE public.users (id int);")
    [c3Constraint] 33 (by decide) (by decide)

end PgDump

namespace PgDump

/-- C4 counterexample (refinement comparison): on a concrete table and
identity-sequence statement, the engine's spliced text is the whole
`GENERATED ALWAYS AS IDENTITY (...)` clause — everything after the
`ALTER TABLE ... ALTER COLUMN ... ADD ` header — not "only the
parenthesized option list following the `GENERATED ... AS IDENTITY`
header" as the claim states; the spec-modelled variant
`attachSequencesToTableSpec`, which splices only the option list, yields
a different string on the same input. -/
theorem claim4_counterexample :
    attachSequencesToTable c4TableDef [c4Sequence] =
      str "CREATE TABLE public.users (\n    id integer GENERATED ALWAYS AS IDENTITY (SEQUENCE NAME public.users_id_seq START WITH 1) NOT NULL,\n    name text\n);" ∧
    attachSequencesToTableSpec c4TableDef [c4Sequence] =
      str "CREATE TABLE public.users (\n    id integer (SEQUENCE NAME public.users_id_seq START WITH 1) NOT NULL,\n    name text\n);" ∧
    attachSequencesToTable c4TableDef [c4Sequence] ≠
      attachSequencesToTableSpec c4TableDef [c4Sequence] :=
  ⟨by decide, by decide, by decide⟩

/-- C4 (amended): when the Attachment Engine inlines an identity sequence
whose owning column is located (`findTableColumnDefinition` succeeds) and
whose statement matches the `ALTER TABLE ... ALTER [COLUMN] <col> ADD `
header, the spliced text is the tail of the sequence statement after that
header — the `GENERATED ... AS IDENTITY` clause together with its
parenthesized option list — with the terminating semicolon stripped,
internal line breaks and runs of indentation collapsed to single spaces
and whitespace immediately inside the parentheses trimmed; the insertion
point is immediately before a trailing `NULL` or `NOT NULL` clause of the
column definition when one is present, and otherwise at the end of the
column definition. -/
theorem claim4_sequence_splice_amended (tdef : Str) (seq : ParsedStmt) (cd : ColDef)
    (hm : REMatch)
    (hcol : findTableColumnDefinition tdef (seq.column.getD []) = some cd)
    (hhdr : execRE sequenceHeaderRegex seq.definition = some hm) :
    attachSequencesToTable tdef [seq] =
      (let ep := match execRE notNullRegex cd.definition with
        | some m => cd.endPos - (cd.definition.length - m.index)
        | none => cd.endPos
      tdef.take ep ++ ' ' ::
        replaceAll parenWsRegex jsTrim
          (replaceAll collapseWsRegex (fun _ => [' '])
            (replaceFirstRE trailingSemiRegex (fun _ => [])
              (seq.definition.drop (hm.index + hm.matched.length)))) ++
        tdef.drop ep) :=
  attachSequencesToTable_single tdef seq cd hm hcol hhdr

/-- Witness for the amended C4 on the concrete scenario: the column
`id integer NOT NULL` sits at positions 32..51 of the table definition
and the header match covers the first 51 characters of the sequence
statement. -/
theorem claim4_sequence_splice_amended_witness :
    attachSequencesToTable c4TableDef [c4Sequence] =
      (let ep := match execRE notNullRegex (str "id integer NOT NULL") with
        | some m => 51 - ((str "id integer NOT NULL").length - m.index)
        | none => 51
      c4TableDef.take ep ++ ' ' ::
        replaceAll parenWsRegex jsTrim
          (replaceAll collapseWsRegex (fun _ => [' '])
            (replaceFirstRE trailingSemiRegex (fun _ => [])
              (c4Sequence.definition.drop
                (0 + (str "ALTER TABLE ONLY public.users ALTER COLUMN id ADD ").length)))) ++
        c4TableDef.drop ep) :=
  claim4_sequence_splice_amended c4TableDef c4Sequence
    ⟨str "id integer NOT NULL", 32, 51⟩
    ⟨0, str "ALTER TABLE ONLY public.users ALTER COLUMN id ADD ",
     [(2, str "users"), (1, str "public")]⟩
    (by decide) (by decide)

/-- C5 counterexample: attaching two index statements to a table appends
them joined by a single newline, not separated from one another by blank
lines; the spec-modelled `specAppendIndexes`, which joins them by blank
lines, yields a different definition text on the same input. -/
theorem claim5_counterexample :
    attachObjectsToTables [c5Table] [c5Index1, c5Index2] =
      [{ c5Table with
          indexes := some [str "CREATE INDEX i1 ON public.t (a);",
                           str "CREATE INDEX i2 ON public.t (b);"],
          definition := str "CREATE TABLE public.t (a int, b int);\n\nCREATE INDEX i1 ON public.t (a);\nCREATE INDEX i2 ON public.t (b);" }] ∧
    str "CREATE TABLE public.t (a int, b int);\n\nCREATE INDEX i1 ON public.t (a);\nCREATE INDEX i2 ON public.t (b);" ≠
      specAppendIndexes c5Table.definition
        [str "CREATE INDEX i1 ON public.t (a);", str "CREATE INDEX i2 ON public.t (b);"] :=
  ⟨by decide, by decide⟩

/-- C5 (amended): for every table or view object whose attachable group
holds index statements, the Attachment Engine appends the index
statements' full texts after the table definition text as it stands
after the sequence and constraint steps — i.e. after the possibly
already sequence- and constraint-modified definition — separated from
that definition by one blank line and joined to one another by single
newlines, and records their full texts in the `indexes` field. -/
theorem claim5_index_append_amended (g : List (Str × AttGroup)) (ob : DBObject)
    (grp : AttGroup)
    (hk : ob.kind = ObjKind.table ∨ ob.kind = ObjKind.view)
    (hg : lookupGroup g (makeQualifiedName ob.schema ob.name) = some grp)
    (hidx : grp.indexes ≠ []) :
    (attachToObject g ob).definition =
      (let d1 := if grp.sequences ≠ [] then
          attachSequencesToTable ob.definition grp.sequences
        else ob.definition
      let d2 := if grp.constraints ≠ [] then
          attachConstraintsToTable d1 grp.constraints
        else d1
      d2 ++ '\n' :: '\n' ::
        List.intercalate ['\n'] (grp.indexes.map (fun st => st.definition))) ∧
    (attachToObject g ob).indexes =
      some (grp.indexes.map (fun st => st.definition)) := by
  have hlen : 0 < grp.indexes.length := List.length_pos.mpr hidx
  rcases hs : grp.sequences with _ | ⟨s0, stl⟩ <;>
    rcases hc : grp.constraints with _ | ⟨c0, ctl⟩ <;>
      simp [attachToObject, hk, hg, hs, hc, hlen]

/-- Witness for the amended C5: a group carrying a constraint and two
index statements, so the indexes are appended after the
constraint-modified definition. -/
theorem claim5_index_append_amended_witness :
    (attachToObject [(str "public.t", ⟨[], [c5Constraint], [c5Index1, c5Index2]⟩)]
        c5Table).definition =
      (let d1 := if ([] : List ParsedStmt) ≠ [] then
          attachSequencesToTable c5Table.definition []
        else c5Table.definition
      let d2 := if [c5Constraint] ≠ ([] : List ParsedStmt) then
          attachConstraintsToTable d1 [c5Constraint]
        else d1
      d2 ++ '\n' :: '\n' ::
        List.intercalate ['\n'] ([c5Index1, c5Index2].map (fun st => st.definition))) ∧
    (attachToObject [(str "public.t", ⟨[], [c5Constraint], [c5Index1, c5Index2]⟩)]
        c5Table).indexes =
      some ([c5Index1, c5Index2].map (fun st => st.definition)) :=
  claim5_index_append_amended
    [(str "public.t", ⟨[], [c5Constraint], [c5Index1, c5Index2]⟩)]
    c5Table ⟨[], [c5Constraint], [c5Index1, c5Index2]⟩ (Or.inl rfl) (by decide) (by decide)

end PgDump

namespace PgDump

/-- C6: attachment affects only objects of kind table or view — one
attachment pass leaves any object of another kind unchanged — and an
attachable whose owning qualified table matches no terminal object is
silently dropped: an object with no matching group is left unchanged, a
classified attachable statement contributes no terminal object and only
its residual prefix (never its definition) to the residual, and the input
consisting only of `CREATE INDEX idx_a ON public.t (a);` parses to no
objects and empty residual without error. -/
theorem claim6_attachment_targets_and_silent_drop :
    (parse (str "CREATE INDEX idx_a ON public.t (a);") =
      { objects := [], residual := [] }) ∧
    (∀ (g : List (Str × AttGroup)) (ob : DBObject),
      ob.kind ≠ ObjKind.table → ob.kind ≠ ObjKind.view → attachToObject g ob = ob) ∧
    (∀ (g : List (Str × AttGroup)) (ob : DBObject),
      lookupGroup g (makeQualifiedName ob.schema ob.name) = none →
      attachToObject g ob = ob) ∧
    (∀ (st : Str) (p : ParsedStmt),
      parseStatement (jsTrim st) = some p → isAttachableKind p.kind = true →
      termObjPieces st = [] ∧
      resPieces st = (match p.residual with | some r => [r] | none => [])) :=
  ⟨by decide, attachToObject_frame, attachToObject_unmatched,
   fun st p hp hatt => ⟨termObjPieces_attachable st p hp hatt, resPieces_classified st p hp⟩⟩

/-- Witness for C6: the frame conjuncts instantiated on a schema-kind
object, an unmatched table object, and the single index statement
`CREATE INDEX i ON t (a);`. -/
theorem claim6_attachment_targets_and_silent_drop_witness :
    (attachToObject []
        { kind := ObjKind.schema,
          schema := str "s",
          name := str "s",
          definition := str "CREATE SCHEMA s;" } =
      { kind := ObjKind.schema,
        schema := str "s",
        name := str "s",
        definition := str "CREATE SCHEMA s;" }) ∧
    (attachToObject [(str "a.b", ⟨[], [], []⟩)]
        { kind := ObjKind.table,
          schema := str "public",
          name := str "t",
          definition := str "CREATE TABLE public.t (a int);" } =
      { kind := ObjKind.table,
        schema := str "public",
        name := str "t",
        definition := str "CREATE TABLE public.t (a int);" }) ∧
    (termObjPieces (str "CREATE INDEX i ON t (a);") = [] ∧
      resPieces (str "CREATE INDEX i ON t (a);") =
        (match (none : Option Str) with | some r => [r] | none => [])) :=
  ⟨claim6_attachment_targets_and_silent_drop.2.1 []
      { kind := ObjKind.schema,
        schema := str "s",
        name := str "s",
        definition := str "CREATE SCHEMA s;" } (by decide) (by decide),
   claim6_attachment_targets_and_silent_drop.2.2.1 [(str "a.b", ⟨[], [], []⟩)]
      { kind := ObjKind.table,
        schema := str "public",
        name := str "t",
        definition := str "CREATE TABLE public.t (a int);" } (by decide),
   claim6_attachment_targets_and_silent_drop.2.2.2 (str "CREATE INDEX i ON t (a);")
      { kind := ObjKind.index,
        schema := str "public",
        name := str "i",
        qualifiedName := some (str "public.i"),
        table := some (str "t"),
        definition := str "CREATE INDEX i ON t (a);" } (by decide) (by decide)⟩

/-- C7: an unmatched dollar-quote opening tag does not fail the
tokenizer: the tag is emitted literally into the current statement and
the scan continues right after it with its state flags unchanged (so in
the Normal state it stays Normal and later semicolons separate again), as
the concrete run `SELECT $$ a; b` → two statements shows; no error is
possible since the tokenizer is a total function. -/
theorem claim7_unclosed_dollar_graceful :
    (∀ (sep : Char) (fuel : Nat) (rem cur : Str) (acc : List Str)
        (a b c d : Bool) (ident : Str),
      dollarTagIdent rem = some ident →
      jsIndexOfFrom rem ('$' :: (ident ++ ['$'])) (ident.length + 2) = none →
      splitLoopF sep (fuel + 1) rem cur acc a b c d =
        splitLoopF sep fuel (rem.drop (ident.length + 2))
          (cur ++ '$' :: (ident ++ ['$'])) acc a b c d) ∧
    splitIntoStatements (str "SELECT $$ a; b") ';' =
      [str "SELECT $$ a;", str " b"] :=
  ⟨fun sep fuel rem cur acc a b c d ident h1 h2 =>
     splitLoopF_unclosed_dollar sep fuel rem cur acc a b c d ident h1 h2,
   by decide⟩

/-- Witness for C7: the unclosed-tag step instantiated on `$$ a; b`
(opening tag `$$` with no closing tag). -/
theorem claim7_unclosed_dollar_graceful_witness :
    splitLoopF ';' 8 (str "$$ a; b") [] [] false false false false =
      splitLoopF ';' 7 ((str "$$ a; b").drop 2)
        ([] ++ '$' :: ([] ++ ['$'])) [] false false false false :=
  claim7_unclosed_dollar_graceful.1 ';' 7 (str "$$ a; b") [] [] false false false false
    [] rfl rfl

/-- C8: a classified statement without an explicit schema qualifier gets
schema `public`: whenever capture group 1 (the schema) did not
participate, the general parser yields schema `public` and qualified name
`public.<name>`; concretely, `CREATE TABLE foo (id int);` parses to a
table object with schema `public` and qualified name `public.foo`. -/
theorem claim8_schema_defaulting :
    (∀ (kind : ObjKind) (m : REMatch) (statement : Str),
      getCap m.caps 1 = none →
      (generalParse kind m statement).schema = str "public" ∧
      (generalParse kind m statement).qualifiedName =
        some (str "public" ++ '.' :: (getCap m.caps 2).getD [])) ∧
    parse (str "CREATE TABLE foo (id int);") =
      { objects := [{ kind := .table, schema := str "public", name := str "foo",
                      qualifiedName := some (str "public.foo"),
                      definition := str "CREATE TABLE foo (id int);" }],
        residual := [] } :=
  ⟨generalParse_default_schema, by decide⟩

/-- Witness for C8: the defaulting conjunct instantiated on a match whose
captures name only group 2 (`foo`). -/
theorem claim8_schema_defaulting_witness :
    (generalParse ObjKind.table ⟨0, str "CREATE TABLE foo", [(2, str "foo")]⟩
        (str "CREATE TABLE foo (id int);")).schema = str "public" ∧
    (generalParse ObjKind.table ⟨0, str "CREATE TABLE foo", [(2, str "foo")]⟩
        (str "CREATE TABLE foo (id int);")).qualifiedName =
      some (str "public" ++ '.' :: (getCap [(2, str "foo")] 2).getD []) :=
  claim8_schema_defaulting.1 ObjKind.table ⟨0, str "CREATE TABLE foo", [(2, str "foo")]⟩
    (str "CREATE TABLE foo (id int);") rfl

/-- C9: the Attachment Engine run with an empty collection of attachable
statements maps every object (table and view included) to itself, leaving
every definition byte-identical; and every object the classification
phase produces has its sequences, constraints and indexes fields unset,
so they remain unset after such a run. -/
theorem claim9_empty_attachment_frame :
    (∀ objects : List DBObject, attachObjectsToTables objects [] = objects) ∧
    (∀ statements : List Str, ∀ ob ∈ (classifyStatements statements).objects,
      ob.sequences = none ∧ ob.constraints = none ∧ ob.indexes = none) := by
  refine ⟨attachObjectsToTables_nil, fun statements ob hob => ?_⟩
  rw [classifyStatements_spec] at hob
  obtain ⟨l, hl, hob⟩ := List.mem_flatten.mp hob
  obtain ⟨st, _, rfl⟩ := List.mem_map.mp hl
  exact termObjPieces_fields st ob hob

/-- Witness for C9: the field-unset conjunct instantiated on the single
statement `CREATE SCHEMA s;` and the object it classifies to. -/
theorem claim9_empty_attachment_frame_witness :
    ({ kind := ObjKind.schema,
       schema := str "s",
       name := str "s",
       definition := str "CREATE SCHEMA s;" } : DBObject).sequences = none ∧
    ({ kind := ObjKind.schema,
       schema := str "s",
       name := str "s",
       definition := str "CREATE SCHEMA s;" } : DBObject).constraints = none ∧
    ({ kind := ObjKind.schema,
       schema := str "s",
       name := str "s",
       definition := str "CREATE SCHEMA s;" } : DBObject).indexes = none :=
  claim9_empty_attachment_frame.2 [str "CREATE SCHEMA s;"]
    { kind := ObjKind.schema,
      schema := str "s",
      name := str "s",
      definition := str "CREATE SCHEMA s;" } (by decide)

/-- C10: the tokenizer partitions its input exactly, for every input
string and every separator character (in particular both `;` and `,`):
the concatenation of the returned statements is byte-for-byte the input
— even for unclosed comments, quotes and dollar-quotes — and every
returned statement is non-empty. -/
theorem claim10_tokenizer_exact_partition :
    ∀ (content : Str) (sep : Char),
      (splitIntoStatements content sep).flatten = content ∧
      ∀ st ∈ splitIntoStatements content sep, st ≠ [] :=
  fun content sep =>
    ⟨splitIntoStatements_join content sep, splitIntoStatements_ne_nil content sep⟩

/-- Witness for C10: instantiated on `a;b` with separator `;`, whose
first statement `a;` is non-empty. -/
theorem claim10_tokenizer_exact_partition_witness :
    (splitIntoStatements (str "a;b") ';').flatten = str "a;b" ∧ str "a;" ≠ [] :=
  ⟨(claim10_tokenizer_exact_partition (str "a;b") ';').1,
   (claim10_tokenizer_exact_partition (str "a;b") ';').2 (str "a;") (by decide)⟩

end PgDump
